import Mathlib

/-!
# Verification of the secure transaction relay core

Shallow embedding of the relay protocol of `frontend-api/server.js` and the
nonce-ledger schema of `setup_database.js`: message signing (HMAC-SHA256 over
the canonical `nonce|timestamp|identity|command` string), JSON wire encoding,
the TLS channel options and the send/response cycle, the HTTP-side command
validation, and the persisted nonce ledger.  Machine words are `Nat` reduced
modulo `2 ^ 32`; byte strings are `List Nat` with every element below 256.
-/

namespace Relay

/-! ## 32-bit word arithmetic (Nat reduced mod 2^32) -/

def w32 : Nat := 4294967296

def add32 (a b : Nat) : Nat := (a + b) % w32

def not32 (x : Nat) : Nat := 4294967295 - x % w32

/-- Right rotation of a 32-bit word (input assumed `< 2 ^ 32`). -/
def rotr32 (n x : Nat) : Nat := x / 2 ^ n + x % 2 ^ n * 2 ^ (32 - n)

def ch32 (x y z : Nat) : Nat := Nat.xor (Nat.land x y) (Nat.land (not32 x) z)

def maj32 (x y z : Nat) : Nat :=
  Nat.xor (Nat.xor (Nat.land x y) (Nat.land x z)) (Nat.land y z)

def bsig0 (x : Nat) : Nat := Nat.xor (Nat.xor (rotr32 2 x) (rotr32 13 x)) (rotr32 22 x)

def bsig1 (x : Nat) : Nat := Nat.xor (Nat.xor (rotr32 6 x) (rotr32 11 x)) (rotr32 25 x)

def ssig0 (x : Nat) : Nat := Nat.xor (Nat.xor (rotr32 7 x) (rotr32 18 x)) (x / 2 ^ 3)

def ssig1 (x : Nat) : Nat := Nat.xor (Nat.xor (rotr32 17 x) (rotr32 19 x)) (x / 2 ^ 10)

/-! ## SHA-256 (FIPS 180-4), over byte lists -/

/-- The eight SHA-256 initial hash values (FIPS 180-4 §5.3.3, decimal). -/
def sha256H0 : List Nat :=
  [1779033703, 3144134277, 1013904242, 2773480762,
   1359893119, 2600822924, 528734635, 1541459225]

/-- The 64 SHA-256 round constants (FIPS 180-4 §4.2.2, decimal). -/
def sha256K : List Nat :=
  [1116352408, 1899447441, 3049323471, 3921009573, 961987163,
   1508970993, 2453635748, 2870763221, 3624381080, 310598401,
   607225278, 1426881987, 1925078388, 2162078206, 2614888103,
   3248222580, 3835390401, 4022224774, 264347078, 604807628,
   770255983, 1249150122, 1555081692, 1996064986, 2554220882,
   2821834349, 2952996808, 3210313671, 3336571891, 3584528711,
   113926993, 338241895, 666307205, 773529912, 1294757372,
   1396182291, 1695183700, 1986661051, 2177026350, 2456956037,
   2730485921, 2820302411, 3259730800, 3345764771, 3516065817,
   3600352804, 4094571909, 275423344, 430227734, 506948616,
   659060556, 883997877, 958139571, 1322822218, 1537002063,
   1747873779, 1955562222, 2024104815, 2227730452, 2361852424,
   2428436474, 2756734187, 3204031479, 3329325298]

/-- Big-endian 4-byte serialization of a 32-bit word. -/
def be32 (w : Nat) : List Nat :=
  [w / 16777216 % 256, w / 65536 % 256, w / 256 % 256, w % 256]

/-- Big-endian 8-byte serialization of a 64-bit length field. -/
def be64 (n : Nat) : List Nat :=
  [n / 72057594037927936 % 256, n / 281474976710656 % 256,
   n / 1099511627776 % 256, n / 4294967296 % 256,
   n / 16777216 % 256, n / 65536 % 256, n / 256 % 256, n % 256]

/-- SHA-256 padding: append `0x80`, zero bytes to 56 mod 64, then the
big-endian 64-bit bit length. -/
def padBytes (msg : List Nat) : List Nat :=
  let l := msg.length
  msg ++ 128 :: List.replicate ((120 - (l + 1) % 64) % 64) 0 ++ be64 (8 * l)

/-- Split a byte list into 64-byte blocks. -/
def toBlocks (l : List Nat) : List (List Nat) :=
  if _h : 0 < l.length then l.take 64 :: toBlocks (l.drop 64) else []
termination_by l.length
decreasing_by
  simp only [List.length_drop]
  omega

/-- Big-endian 32-bit words of a block. -/
def beWords : List Nat → List Nat
  | a :: b :: c :: d :: rest => (((a * 256 + b) * 256 + c) * 256 + d) :: beWords rest
  | _ => []

def iterFn {α : Type} (f : α → α) : Nat → α → α
  | 0, a => a
  | n + 1, a => iterFn f n (f a)

/-- One message-schedule extension step, on the reversed schedule. -/
def schedStep (rev : List Nat) : List Nat :=
  add32 (add32 (ssig1 (rev.getD 1 0)) (rev.getD 6 0))
    (add32 (ssig0 (rev.getD 14 0)) (rev.getD 15 0)) :: rev

/-- The 64-entry SHA-256 message schedule of a block's 16 words. -/
def sha256Schedule (ws : List Nat) : List Nat :=
  (iterFn schedStep 48 ws.reverse).reverse

/-- Working state of a SHA-256 compression round. -/
structure St8 where
  a : Nat
  b : Nat
  c : Nat
  d : Nat
  e : Nat
  f : Nat
  g : Nat
  h : Nat

/-- One SHA-256 compression round; `kw` is the round constant and schedule word. -/
def sha256Round (st : St8) (kw : Nat × Nat) : St8 :=
  let t1 := add32 (add32 (add32 st.h (bsig1 st.e)) (add32 (ch32 st.e st.f st.g) kw.1)) kw.2
  let t2 := add32 (bsig0 st.a) (maj32 st.a st.b st.c)
  ⟨add32 t1 t2, st.a, st.b, st.c, add32 st.d t1, st.e, st.f, st.g⟩

/-- Compress one 64-byte block into the 8-word chaining state. -/
def compressBlock (hs : List Nat) (block : List Nat) : List Nat :=
  let ws := sha256Schedule (beWords block)
  let st0 : St8 := ⟨hs.getD 0 0, hs.getD 1 0, hs.getD 2 0, hs.getD 3 0,
                    hs.getD 4 0, hs.getD 5 0, hs.getD 6 0, hs.getD 7 0⟩
  let st := (sha256K.zip ws).foldl sha256Round st0
  [add32 (hs.getD 0 0) st.a, add32 (hs.getD 1 0) st.b, add32 (hs.getD 2 0) st.c,
   add32 (hs.getD 3 0) st.d, add32 (hs.getD 4 0) st.e, add32 (hs.getD 5 0) st.f,
   add32 (hs.getD 6 0) st.g, add32 (hs.getD 7 0) st.h]

/-- SHA-256 digest (32 bytes) of a byte list. -/
def sha256 (msg : List Nat) : List Nat :=
  ((toBlocks (padBytes msg)).foldl compressBlock sha256H0).flatMap be32

/-- HMAC-SHA256 (FIPS 198-1) over byte lists, block size 64. -/
def hmacSha256 (key msg : List Nat) : List Nat :=
  let kh := if 64 < key.length then sha256 key else key
  let k0 := kh ++ List.replicate (64 - kh.length) 0
  sha256 (k0.map (fun b => Nat.xor b 92) ++
    sha256 (k0.map (fun b => Nat.xor b 54) ++ msg))

/-! ## UTF-8 and lowercase-hex encoding -/

/-- UTF-8 encoding of one unicode scalar. -/
def utf8EncodeChar (c : Char) : List Nat :=
  let n := c.toNat
  if n < 128 then [n]
  else if n < 2048 then [192 + n / 64, 128 + n % 64]
  else if n < 65536 then [224 + n / 4096, 128 + n / 64 % 64, 128 + n % 64]
  else [240 + n / 262144, 128 + n / 4096 % 64, 128 + n / 64 % 64, 128 + n % 64]

/-- UTF-8 bytes of a string (how Node's `crypto` consumes string inputs). -/
def strBytes (s : String) : List Nat := s.data.flatMap utf8EncodeChar

/-- Lowercase hex digit for a value below 16. -/
def hexDigitChar (n : Nat) : Char :=
  if n < 10 then Char.ofNat (48 + n) else Char.ofNat (87 + n)

/-- Two lowercase hex digits of one byte. -/
def byteHex (b : Nat) : List Char := [hexDigitChar (b / 16 % 16), hexDigitChar (b % 16)]

/-- Lowercase-hex string of a byte list (Node `digest('hex')`). -/
def bytesToHexStr (bs : List Nat) : String := String.mk (bs.flatMap byteHex)

/-- Function `hmacSha256Hex(key, data)` of server.js: lowercase-hex HMAC-SHA256,
key and data taken as UTF-8 strings. -/
def hmacSha256Hex (key data : String) : String :=
  bytesToHexStr (hmacSha256 (strBytes key) (strBytes data))

/-- Lowercase hexadecimal digit test. -/
def isLowerHexChar (c : Char) : Bool :=
  (Nat.ble 48 c.toNat && Nat.ble c.toNat 57) || (Nat.ble 97 c.toNat && Nat.ble c.toNat 102)

/-! ## JavaScript string primitives -/

/-- A value arriving from a JSON request body, as the endpoint sees it:
`undef` is a missing field, `str` a string, `other` any non-string value
(the endpoint's `typeof` check rejects those; `other` abstracts the truthy
ones, which is the path a non-string object takes). -/
inductive JsValue where
  | undef
  | str (s : String)
  | other
deriving DecidableEq

/-- The code points `String.prototype.trim` removes (ECMA-262 WhiteSpace
and LineTerminator). -/
def jsWsCodes : List Nat :=
  [9, 10, 11, 12, 13, 32, 160, 5760, 8192, 8193, 8194, 8195, 8196, 8197,
   8198, 8199, 8200, 8201, 8202, 8232, 8233, 8239, 8287, 12288, 65279]

def isJsWs (c : Char) : Bool := jsWsCodes.contains c.toNat

def jsTrimChars (cs : List Char) : List Char :=
  ((cs.dropWhile isJsWs).reverse.dropWhile isJsWs).reverse

/-- JS `String.prototype.trim`. -/
def jsTrim (s : String) : String := String.mk (jsTrimChars s.data)

/-- The characters removed by `sanitizeInput`'s regex `[<>'"]`. -/
def isBadChar (c : Char) : Bool :=
  c.toNat == 60 || c.toNat == 62 || c.toNat == 39 || c.toNat == 34

def sanitizeStr (s : String) : String :=
  String.mk ((jsTrimChars s.data).filter (fun c => !isBadChar c))

/-- Function `sanitizeInput` of server.js: non-strings become `""`; strings are
trimmed and stripped of every occurrence of `<`, `>`, `'`, `"`. -/
def sanitizeInput (v : JsValue) : String :=
  match v with
  | .str s => sanitizeStr s
  | _ => ""

/-- UTF-16 code units of one scalar (JS `String.length` counts these). -/
def utf16Len (c : Char) : Nat := if c.toNat < 65536 then 1 else 2

/-- JS `String.prototype.length`. -/
def jsStrLength (s : String) : Nat := (s.data.map utf16Len).sum

/-- JS `split(sep)` for a one-character separator. -/
def splitOnSep (sep : Char) : List Char → List (List Char)
  | [] => [[]]
  | c :: rest =>
    let r := splitOnSep sep rest
    if c = sep then [] :: r else (c :: r.headD []) :: r.tail

/-- JS `split(',')` on a character list. -/
def splitComma (cs : List Char) : List (List Char) := splitOnSep ',' cs

/-- Truthiness of a JSON body value (`!mensaje`); `other` abstracts
truthy non-strings. -/
def jsFalsy (v : JsValue) : Bool :=
  match v with
  | .undef => true
  | .str s => s == ""
  | .other => false

/-- Truthiness of an optional environment string (`!process.env.X`). -/
def jsTruthyStr (o : Option String) : Bool :=
  match o with
  | none => false
  | some s => s != ""

def digitsVal (ds : List Char) : Nat :=
  ds.foldl (fun a c => a * 10 + (c.toNat - 48)) 0

def spanDigits (cs : List Char) : List Char × List Char :=
  (cs.takeWhile Char.isDigit, cs.dropWhile Char.isDigit)

def startsList (p cs : List Char) : Bool := cs.take p.length == p

/-- Result of JS `parseFloat`, kept structural: sign, infinity flag,
significand digits and decimal exponent.  (The sign and significand
determine the comparison with zero; float rounding is not modelled, so
exponents extreme enough to underflow to zero are out of scope.) -/
structure JsFloat where
  neg : Bool
  isInf : Bool
  intDigits : List Char
  fracDigits : List Char
  exp10 : Int
deriving DecidableEq, Repr

/-- Exponent part (`e`/`E`, optional sign, digits) at the head of the
input; contributes 0 when absent or incomplete, as `parseFloat` then
stops before the `e`. -/
def parseExpPart (cs : List Char) : Int :=
  match cs with
  | e :: rest =>
    if e = 'e' || e = 'E' then
      match rest with
      | '+' :: rest2 =>
        (fun ds => if ds = [] then 0 else (digitsVal ds : Int)) (spanDigits rest2).1
      | '-' :: rest2 =>
        (fun ds => if ds = [] then 0 else -(digitsVal ds : Int)) (spanDigits rest2).1
      | _ =>
        (fun ds => if ds = [] then 0 else (digitsVal ds : Int)) (spanDigits rest).1
    else 0
  | [] => 0

def jsParseFloatAfterSign (neg : Bool) (cs : List Char) : Option JsFloat :=
  if startsList "Infinity".data cs then some ⟨neg, true, [], [], 0⟩
  else
    let ip := (spanDigits cs).1
    let r1 := (spanDigits cs).2
    let fp :=
      match r1 with
      | '.' :: rest => (spanDigits rest).1
      | _ => []
    let r2 :=
      match r1 with
      | '.' :: rest => (spanDigits rest).2
      | _ => r1
    if ip.length + fp.length = 0 then none
    else some ⟨neg, false, ip, fp, parseExpPart r2⟩

/-- JS `parseFloat`: leading whitespace, optional sign, `Infinity` or a
decimal significand with optional exponent, longest valid prefix; `none`
is `NaN`. -/
def jsParseFloat (s : String) : Option JsFloat :=
  match s.data.dropWhile isJsWs with
  | '-' :: rest => jsParseFloatAfterSign true rest
  | '+' :: rest => jsParseFloatAfterSign false rest
  | cs => jsParseFloatAfterSign false cs

/-- The test `x > 0` on a `parseFloat` result: positive sign and (infinite or a
nonzero significand digit). -/
def jsFloatPos (p : JsFloat) : Bool :=
  !p.neg && (p.isInf || (p.intDigits ++ p.fracDigits).any (fun c => c != '0'))

def isHexDigitChar (c : Char) : Bool :=
  c.isDigit || (Nat.ble 97 c.toNat && Nat.ble c.toNat 102) ||
    (Nat.ble 65 c.toNat && Nat.ble c.toNat 70)

def hexDigitsVal (ds : List Char) : Nat :=
  ds.foldl (fun a c =>
    a * 16 + (if Nat.ble 97 c.toNat then c.toNat - 87
              else if Nat.ble 65 c.toNat then c.toNat - 55
              else c.toNat - 48)) 0

def applySign (neg : Bool) (n : Nat) : Int := if neg then -(n : Int) else (n : Int)

/-- JS `parseInt` with no radix argument: leading whitespace, optional
sign, `0x` hex prefix or decimal digits, longest valid prefix; `none` is
`NaN`. -/
def jsParseInt (s : String) : Option Int :=
  let cs := s.data.dropWhile isJsWs
  let neg := match cs with | '-' :: _ => true | _ => false
  let cs2 := match cs with | '-' :: r => r | '+' :: r => r | c => c
  match cs2 with
  | '0' :: x :: rest =>
    if x = 'x' || x = 'X' then
      let hs := rest.takeWhile isHexDigitChar
      if hs = [] then none else some (applySign neg (hexDigitsVal hs))
    else some (applySign neg (digitsVal (cs2.takeWhile Char.isDigit)))
  | _ =>
    let ds := cs2.takeWhile Char.isDigit
    if ds = [] then none else some (applySign neg (digitsVal ds))

/-- The idiom `parseInt(v) || 5000`: `NaN` and `0` both fall back to the default. -/
def jsParseIntOr5000 (o : Option String) : Int :=
  match o with
  | none => 5000
  | some s =>
    match jsParseInt s with
    | none => 5000
    | some v => if v = 0 then 5000 else v

/-! ## The signed transaction message and its wire encoding -/

/-- The decimal digits of a Nat, as a JS template literal renders a
nonnegative integer. -/
def natToChars (n : Nat) : List Char :=
  if h : n < 10 then [Char.ofNat (48 + n)]
  else natToChars (n / 10) ++ [Char.ofNat (48 + n % 10)]
termination_by n
decreasing_by exact Nat.div_lt_self (by omega) (by omega)

/-- The payload object of `enviarTransaccionTCP`, field for field. -/
structure MsgRecord where
  tipo : String
  usuario : String
  mensaje : String
  nonce : String
  timestamp : Nat
  mac : String
deriving DecidableEq, Repr

/-- The canonical string `${nonce}|${timestamp}|${usuario}|${mensaje}`
signed by `enviarTransaccionTCP`. -/
def canonicalString (nonce : String) (ts : Nat) (usuario mensaje : String) : String :=
  nonce ++ "|" ++ String.mk (natToChars ts) ++ "|" ++ usuario ++ "|" ++ mensaje

/-- Message composition inside `enviarTransaccionTCP`: fixed kind `MSG`
and the HMAC tag over the canonical string. -/
def composeMessage (key usuario mensaje nonce : String) (ts : Nat) : MsgRecord :=
  ⟨"MSG", usuario, mensaje, nonce, ts, hmacSha256Hex key (canonicalString nonce ts usuario mensaje)⟩

def lbrace : Char := Char.ofNat 123

def rbrace : Char := Char.ofNat 125

/-- Escaping of one character, as `JSON.stringify` performs it. -/
def escChar (c : Char) : List Char :=
  if c = '"' then ['\\', '"']
  else if c = '\\' then ['\\', '\\']
  else if c.toNat = 8 then ['\\', 'b']
  else if c.toNat = 9 then ['\\', 't']
  else if c.toNat = 10 then ['\\', 'n']
  else if c.toNat = 12 then ['\\', 'f']
  else if c.toNat = 13 then ['\\', 'r']
  else if c.toNat < 32 then ['\\', 'u', '0', '0', hexDigitChar (c.toNat / 16), hexDigitChar (c.toNat % 16)]
  else [c]

/-- A `JSON.stringify` string literal. -/
def jsonQuote (s : String) : List Char := '"' :: s.data.flatMap escChar ++ ['"']

/-- The payload `JSON.stringify({ tipo, usuario, mensaje, nonce, timestamp, mac })`:
object keys in insertion order. -/
def encodePayloadChars (m : MsgRecord) : List Char :=
  lbrace :: (jsonQuote "tipo" ++ ':' :: jsonQuote m.tipo
    ++ ',' :: jsonQuote "usuario" ++ ':' :: jsonQuote m.usuario
    ++ ',' :: jsonQuote "mensaje" ++ ':' :: jsonQuote m.mensaje
    ++ ',' :: jsonQuote "nonce" ++ ':' :: jsonQuote m.nonce
    ++ ',' :: jsonQuote "timestamp" ++ ':' :: natToChars m.timestamp
    ++ ',' :: jsonQuote "mac" ++ ':' :: jsonQuote m.mac
    ++ [rbrace])

def encodePayload (m : MsgRecord) : String := String.mk (encodePayloadChars m)

/-- The bytes `socket.write(payload + '\n')` puts on the wire. -/
def wireLine (m : MsgRecord) : String := String.mk (encodePayloadChars m ++ ['\n'])

def hexVal (c : Char) : Option Nat :=
  if 48 ≤ c.toNat ∧ c.toNat ≤ 57 then some (c.toNat - 48)
  else if 97 ≤ c.toNat ∧ c.toNat ≤ 102 then some (c.toNat - 87)
  else if 65 ≤ c.toNat ∧ c.toNat ≤ 70 then some (c.toNat - 55)
  else none

def dropPrefixChars : List Char → List Char → Option (List Char)
  | [], rest => some rest
  | l :: ls, c :: cs => if c = l then dropPrefixChars ls cs else none
  | _ :: _, [] => none

/-- JSON string-body scanner (fuelled; one fuel unit per produced
character, so any fuel above the produced length suffices). -/
def parseStrAux : Nat → List Char → Option (List Char × List Char)
  | 0, _ => none
  | _ + 1, [] => none
  | fuel + 1, c :: rest =>
    if c = '"' then some ([], rest)
    else if c = '\\' then
      match rest with
      | [] => none
      | e :: rest2 =>
        if e = '"' then (parseStrAux fuel rest2).map (fun p => ('"' :: p.1, p.2))
        else if e = '\\' then (parseStrAux fuel rest2).map (fun p => ('\\' :: p.1, p.2))
        else if e = '/' then (parseStrAux fuel rest2).map (fun p => ('/' :: p.1, p.2))
        else if e = 'b' then (parseStrAux fuel rest2).map (fun p => (Char.ofNat 8 :: p.1, p.2))
        else if e = 't' then (parseStrAux fuel rest2).map (fun p => (Char.ofNat 9 :: p.1, p.2))
        else if e = 'n' then (parseStrAux fuel rest2).map (fun p => (Char.ofNat 10 :: p.1, p.2))
        else if e = 'f' then (parseStrAux fuel rest2).map (fun p => (Char.ofNat 12 :: p.1, p.2))
        else if e = 'r' then (parseStrAux fuel rest2).map (fun p => (Char.ofNat 13 :: p.1, p.2))
        else if e = 'u' then
          match rest2 with
          | h1 :: h2 :: h3 :: h4 :: rest3 =>
            match hexVal h1, hexVal h2, hexVal h3, hexVal h4 with
            | some v1, some v2, some v3, some v4 =>
              (parseStrAux fuel rest3).map
                (fun p => (Char.ofNat (((v1 * 16 + v2) * 16 + v3) * 16 + v4) :: p.1, p.2))
            | _, _, _, _ => none
          | _ => none
        else none
    else (parseStrAux fuel rest).map (fun p => (c :: p.1, p.2))

/-- Parse a JSON string literal at the head of the input. -/
def parseJsonStr (cs : List Char) : Option (String × List Char) :=
  match cs with
  | c :: rest =>
    if c = '"' then (parseStrAux (rest.length + 1) rest).map (fun p => (String.mk p.1, p.2))
    else none
  | [] => none

def parseNatPart (cs : List Char) : Option (Nat × List Char) :=
  let ds := cs.takeWhile Char.isDigit
  if ds = [] then none else some (digitsVal ds, cs.dropWhile Char.isDigit)

def keyColon (name : String) : List Char := jsonQuote name ++ [':']

/-- Modelled from the spec: the processing side's decoder (the Python
`transaccion-server`, whose sources are not under src/) parses the single
newline-terminated JSON record the gateway emits — fields `tipo`,
`usuario`, `mensaje`, `nonce`, `timestamp`, `mac` in wire order. -/
def decodePayload (line : String) : Option MsgRecord := do
  let r1 ← dropPrefixChars (lbrace :: keyColon "tipo") line.data
  let (tipo, r2) ← parseJsonStr r1
  let r3 ← dropPrefixChars (',' :: keyColon "usuario") r2
  let (usuario, r4) ← parseJsonStr r3
  let r5 ← dropPrefixChars (',' :: keyColon "mensaje") r4
  let (mensaje, r6) ← parseJsonStr r5
  let r7 ← dropPrefixChars (',' :: keyColon "nonce") r6
  let (nonce, r8) ← parseJsonStr r7
  let r9 ← dropPrefixChars (',' :: keyColon "timestamp") r8
  let (ts, r10) ← parseNatPart r9
  let r11 ← dropPrefixChars (',' :: keyColon "mac") r10
  let (mac, r12) ← parseJsonStr r11
  let r13 ← dropPrefixChars [rbrace, '\n'] r12
  if r13 = [] then some ⟨tipo, usuario, mensaje, nonce, ts, mac⟩ else none

/-! ## The secure channel: TLS options and the send cycle -/

/-- Runtime configuration, as read from `process.env` and the certs
directory. -/
structure Env where
  hmacKey : Option String
  tlsTimeoutMs : Option String
  pythonHost : String
  pythonPort : Nat
  rootCA : String
deriving DecidableEq

/-- The `tlsOptions` object handed to `tls.connect`. -/
structure TlsOpts where
  host : String
  port : Nat
  ca : List String
  rejectUnauthorized : Bool
  minVersion : String
  maxVersion : String
  ciphers : String
  timeout : Int
deriving DecidableEq, Repr

/-- The TLS protocol versions Node supports, oldest to newest. -/
def supportedTlsVersions : List String := ["TLSv1", "TLSv1.1", "TLSv1.2", "TLSv1.3"]

def newestTlsVersion : String := supportedTlsVersions.getLast (by decide)

/-- The five TLS 1.3 cipher suites, all AEAD (GCM, POLY1305 or CCM). -/
def tls13AeadSuites : List String :=
  ["TLS_AES_256_GCM_SHA384", "TLS_CHACHA20_POLY1305_SHA256",
   "TLS_AES_128_GCM_SHA256", "TLS_AES_128_CCM_SHA256", "TLS_AES_128_CCM_8_SHA256"]

def cipherAllowList : String :=
  "TLS_AES_256_GCM_SHA384:TLS_CHACHA20_POLY1305_SHA256:TLS_AES_128_GCM_SHA256"

/-- The literal `tlsOptions` of `enviarTransaccionTCP`. -/
def tlsOptionsOf (env : Env) : TlsOpts :=
  ⟨env.pythonHost, env.pythonPort, [env.rootCA], true, "TLSv1.3", "TLSv1.3",
   cipherAllowList, jsParseIntOr5000 env.tlsTimeoutMs⟩

/-- The idle timeout set by `socket.setTimeout`, computed exactly as the
connect timeout. -/
def socketTimeoutOf (env : Env) : Int := jsParseIntOr5000 env.tlsTimeoutMs

/-- A Node error as the call site can observe it: `code` and `message`. -/
structure JsError where
  code : Option String
  message : String
deriving DecidableEq, Repr

/-- Observable channel actions of one `enviarTransaccionTCP` call. -/
inductive ChanEvent where
  | connectAttempt (opts : TlsOpts)
  | wrote (data : String)
  | readData (data : String)
  | closed
  | destroyed
deriving DecidableEq

/-- How the network answers one connection attempt. -/
inductive NetOutcome where
  | responds (data : String)
  | idleTimeout
  | connectTimeout
  | refused
  | handshakeFail (code : String) (msg : String)
deriving DecidableEq

def timeoutError : JsError := ⟨none, "Timeout de conexión con servidor de transacciones"⟩

def configError : JsError := ⟨none, "HMAC_KEY no configurada"⟩

def refusedError : JsError := ⟨some "ECONNREFUSED", "connect ECONNREFUSED"⟩

/-- Function `enviarTransaccionTCP(usuario, mensaje)`.  Here `nonce` and `timestamp`
stand for this call's fresh `generateNonceHex(16)` draw and
`Math.floor(Date.now()/1000)` reading; `net` is the peer's behaviour.
Returns the promise outcome and the channel events in order. -/
def enviarTransaccionTCP (env : Env) (net : NetOutcome) (nonce : String) (timestamp : Nat)
    (usuario mensaje : String) : Except JsError String × List ChanEvent :=
  match env.hmacKey with
  | none => (.error configError, [])
  | some k =>
    if k = "" then (.error configError, [])
    else
      let m := composeMessage k usuario mensaje nonce timestamp
      let opts := tlsOptionsOf env
      match net with
      | .responds d =>
        (.ok (jsTrim d), [.connectAttempt opts, .wrote (wireLine m), .readData d, .closed])
      | .idleTimeout =>
        (.error timeoutError, [.connectAttempt opts, .wrote (wireLine m), .destroyed])
      | .connectTimeout =>
        (.error timeoutError, [.connectAttempt opts, .destroyed])
      | .refused =>
        (.error refusedError, [.connectAttempt opts, .closed])
      | .handshakeFail c msg =>
        (.error ⟨some c, msg⟩, [.connectAttempt opts, .closed])

/-! ## The /api/send endpoint -/

def errFaltaMensaje : String := "Falta el campo mensaje"

def errMensajeInvalido : String := "mensaje inválido o excede los 250 caracteres"

def errFormato : String :=
  "Formato de mensaje inválido. Esperado: tipo,cantidad,categoria,descripcion"

def errTipo : String := "El tipo debe ser \"ingreso\" o \"gasto\""

def errCantidad : String := "La cantidad debe ser un número positivo"

def errGenerico : String := "Error interno del servidor"

def errTlsBody : String := "Error de comunicación segura con el servidor de transacciones."

def errRefusedBody : String := "Servidor de transacciones no disponible. Intente más tarde."

/-- Decidable equality on promise outcomes. -/
instance {ε α : Type} [DecidableEq ε] [DecidableEq α] : DecidableEq (Except ε α) := fun x y =>
  match x, y with
  | .ok a, .ok b => if h : a = b then isTrue (by rw [h]) else isFalse (by simp [h])
  | .error a, .error b => if h : a = b then isTrue (by rw [h]) else isFalse (by simp [h])
  | .ok _, .error _ => isFalse (by simp)
  | .error _, .ok _ => isFalse (by simp)

/-- The string-typed tail of the `POST /api/send` validation chain:
length bound, sanitization, comma split, operation kind, positive amount. -/
def validateStr (s : String) : Except String String :=
  if 250 < jsStrLength s then .error errMensajeInvalido
  else if (splitComma (sanitizeStr s).data).length ≠ 4 then .error errFormato
  else if !((splitComma (sanitizeStr s).data).headD [] == "ingreso".data
      || (splitComma (sanitizeStr s).data).headD [] == "gasto".data) then .error errTipo
  else
    match jsParseFloat (String.mk ((splitComma (sanitizeStr s).data).getD 1 [])) with
    | none => .error errCantidad
    | some p => if jsFloatPos p then .ok (sanitizeStr s) else .error errCantidad

/-- The validation chain of `POST /api/send`, returning the 400 body on
rejection or the sanitized message that is relayed. -/
def validateSend (mensaje : JsValue) : Except String String :=
  if jsFalsy mensaje then .error errFaltaMensaje
  else
    match mensaje with
    | .str s => validateStr s
    | _ => .error errMensajeInvalido

structure HttpResponse where
  status : Nat
  body : String
deriving DecidableEq, Repr

def startsWithStr (p s : String) : Bool := s.data.take p.data.length == p.data

/-- The catch branch of `POST /api/send` followed by the global error
handler: `ERR_TLS_*` codes, `ECONNREFUSED`, else the generic 500. -/
def classifyTcpError (e : JsError) : HttpResponse :=
  match e.code with
  | some c =>
    if (c != "") && startsWithStr "ERR_TLS_" c then ⟨500, errTlsBody⟩
    else if c == "ECONNREFUSED" then ⟨503, errRefusedBody⟩
    else ⟨500, errGenerico⟩
  | none => ⟨500, errGenerico⟩

/-- The whole `POST /api/send` handler after token verification:
validation, relay, response mapping. -/
def handleSend (env : Env) (net : NetOutcome) (nonce : String) (ts : Nat)
    (usuarioToken : String) (mensaje : JsValue) : HttpResponse × List ChanEvent :=
  match validateSend mensaje with
  | .error b => (⟨400, b⟩, [])
  | .ok t =>
    match enviarTransaccionTCP env net nonce ts usuarioToken t with
    | (.ok resp, evs) => (⟨200, resp⟩, evs)
    | (.error e, evs) => (classifyTcpError e, evs)

/-! ## The nonce ledger -/

/-- One row of `nonces_usados`: `usuario`, `nonce` (UNIQUE), `fecha`.
The surrogate `id SERIAL` column is the list position. -/
structure NonceRecord where
  usuario : String
  nonce : String
  fecha : Nat
deriving DecidableEq, Repr

/-- Modelled from the spec: the verifier (the Python `transaccion-server`,
not under src/) is the ledger's only writer and only ever INSERTs; the
UNIQUE constraint on `nonce` (from the `CREATE TABLE nonces_usados`
schema) makes the insert fail on any duplicate nonce, whoever owns it. -/
def insertNonce (L : List NonceRecord) (r : NonceRecord) : Option (List NonceRecord) :=
  if L.any (fun q => q.nonce == r.nonce) then none else some (L ++ [r])

/-- Ledger states reachable from the empty table by successful inserts. -/
inductive ReachableLedger : List NonceRecord → Prop where
  | nil : ReachableLedger []
  | step (L : List NonceRecord) (r : NonceRecord) (L' : List NonceRecord) :
      ReachableLedger L → insertNonce L r = some L' → ReachableLedger L'

/-! ## Spec-side predicates (for refinement comparison) -/

/-- The spec's words for the amount field: a decimal numeral, value
greater than zero — digits with at most one decimal point, nothing else,
and some nonzero digit. -/
def isPositiveDecimalLiteral (s : String) : Bool :=
  let cs := s.data
  !cs.isEmpty && cs.all (fun c => c.isDigit || c == '.') &&
    Nat.ble (cs.filter (fun c => c == '.')).length 1 &&
    cs.any (fun c => c.isDigit && c != '0')

/-- A `MsgRecord` with the tag field blanked, to state that two payloads
differ at most in the tag. -/
def eraseMac (m : MsgRecord) : MsgRecord :=
  ⟨m.tipo, m.usuario, m.mensaje, m.nonce, m.timestamp, ""⟩

/-- Test for a channel connect attempt among the observable events. -/
def isConnectEvt : ChanEvent → Bool
  | .connectAttempt _ => true
  | _ => false

def isWroteEvt : ChanEvent → Bool
  | .wrote _ => true
  | _ => false

def isReadEvt : ChanEvent → Bool
  | .readData _ => true
  | _ => false

/-- The call ends by closing or destroying its channel. -/
def lastIsTeardown (evs : List ChanEvent) : Bool :=
  match evs.getLast? with
  | some .closed => true
  | some .destroyed => true
  | _ => false

/-- Neither end of the character list is JS whitespace (vacuous for the
empty list). -/
def noEdgeWs (cs : List Char) : Bool :=
  !isJsWs (cs.headD 'a') && !isJsWs (cs.getLastD 'a')

/-- A concrete well-formed environment used by closed statements. -/
def envEx : Env := ⟨some "clave", none, "127.0.0.1", 5030, "PEM"⟩

/-! # Theorems -/

/-! ## Hex digest facts -/

theorem hexDigitChar_lower : ∀ n < 16, isLowerHexChar (hexDigitChar n) = true := by decide

theorem byteHex_lower (b : Nat) : (byteHex b).all isLowerHexChar = true := by
  have h1 : b / 16 % 16 < 16 := by omega
  have h2 : b % 16 < 16 := by omega
  simp [byteHex, hexDigitChar_lower _ h1, hexDigitChar_lower _ h2]

theorem flatMap_all {α β : Type} (f : α → List β) (p : β → Bool) (l : List α)
    (h : ∀ a, (f a).all p = true) : (l.flatMap f).all p = true := by
  induction l with
  | nil => rfl
  | cons a l ih => simp only [List.flatMap_cons, List.all_append, ih, h a, Bool.and_self]

theorem flatMap_length_const {α β : Type} (f : α → List β) (k : Nat)
    (hf : ∀ a, (f a).length = k) (l : List α) : (l.flatMap f).length = k * l.length := by
  induction l with
  | nil => simp
  | cons a l ih =>
    simp only [List.flatMap_cons, List.length_append, ih, hf a, List.length_cons]
    ring

theorem bytesToHexStr_lower (bs : List Nat) :
    (bytesToHexStr bs).data.all isLowerHexChar = true :=
  flatMap_all byteHex isLowerHexChar bs byteHex_lower

theorem bytesToHexStr_length (bs : List Nat) :
    (bytesToHexStr bs).length = 2 * bs.length :=
  flatMap_length_const byteHex 2 (fun _ => rfl) bs

theorem foldl_compress_length (blocks : List (List Nat)) (hs : List Nat)
    (h : hs.length = 8) : (blocks.foldl compressBlock hs).length = 8 := by
  induction blocks generalizing hs with
  | nil => exact h
  | cons b bs ih => exact ih (compressBlock hs b) rfl

theorem sha256_length (msg : List Nat) : (sha256 msg).length = 32 := by
  unfold sha256
  rw [flatMap_length_const be32 4 (fun _ => rfl),
    foldl_compress_length (toBlocks (padBytes msg)) sha256H0 (by rfl)]

theorem hmacSha256_length (key msg : List Nat) : (hmacSha256 key msg).length = 32 :=
  sha256_length _

/-! ## C1 -/

/-- C1: the integrity tag placed in the outgoing message equals the
lowercase-hex HMAC-SHA256, under the shared key, of the canonical string
joining nonce, timestamp, identity and command in exactly that order with
a literal pipe delimiter; the tag is 64 lowercase hex characters. -/
theorem tag_is_hmac_of_canonical (key usuario mensaje nonce : String) (ts : Nat) :
    (composeMessage key usuario mensaje nonce ts).mac
      = hmacSha256Hex key
          (nonce ++ "|" ++ String.mk (natToChars ts) ++ "|" ++ usuario ++ "|" ++ mensaje)
    ∧ (composeMessage key usuario mensaje nonce ts).mac.data.all isLowerHexChar = true
    ∧ (composeMessage key usuario mensaje nonce ts).mac.length = 64 := by
  refine ⟨rfl, bytesToHexStr_lower _, ?_⟩
  show (bytesToHexStr _).length = 64
  rw [bytesToHexStr_length, hmacSha256_length]

/-! ## C2 -/

theorem insertNonce_some {L : List NonceRecord} {r : NonceRecord} {L' : List NonceRecord}
    (h : insertNonce L r = some L') :
    L' = L ++ [r] ∧ ∀ q ∈ L, q.nonce ≠ r.nonce := by
  unfold insertNonce at h
  by_cases ha : L.any (fun q => q.nonce == r.nonce) = true
  · rw [if_pos ha] at h
    exact absurd h (by simp)
  · rw [if_neg ha] at h
    refine ⟨(Option.some_inj.mp h).symm, ?_⟩
    intro q hq
    have := (List.any_eq_false.mp (Bool.eq_false_iff.mpr ha)) q hq
    simpa using this

theorem reachable_nonces_nodup {L : List NonceRecord} (hR : ReachableLedger L) :
    (L.map (fun q => q.nonce)).Nodup := by
  induction hR with
  | nil => simp
  | step L0 r0 L0' _ hins ih =>
    obtain ⟨rfl, hdisj⟩ := insertNonce_some hins
    rw [List.map_append, List.nodup_append]
    refine ⟨ih, by simp, ?_⟩
    intro a ha
    simp only [List.map_cons, List.map_nil, List.mem_singleton]
    simp only [List.mem_map] at ha
    obtain ⟨q, hq, rfl⟩ := ha
    exact hdisj q hq

/-- C2: the nonce ledger row is `(usuario, nonce, fecha)` with nonce
unique globally — in any reachable ledger the nonces are pairwise
distinct, an insert of a nonce already present under any identity fails,
and a successful insert only appends, leaving every existing record in
place and unchanged. -/
theorem nonce_ledger_unique (L : List NonceRecord) (r : NonceRecord)
    (L' : List NonceRecord) (hR : ReachableLedger L) :
    (L.map (fun q => q.nonce)).Nodup
    ∧ ((∃ q ∈ L, q.nonce = r.nonce) → insertNonce L r = none)
    ∧ (insertNonce L r = some L' → L' = L ++ [r]) := by
  refine ⟨reachable_nonces_nodup hR, ?_, ?_⟩
  · rintro ⟨q, hq, hqn⟩
    unfold insertNonce
    rw [if_pos]
    exact List.any_eq_true.mpr ⟨q, hq, by simp [hqn]⟩
  · intro h
    exact (insertNonce_some h).1

/-- Witness for C2 at a two-identity ledger sharing one nonce value. -/
theorem nonce_ledger_unique_witness :
    (([⟨"alice", "aa", 0⟩] : List NonceRecord).map (fun q => q.nonce)).Nodup
    ∧ ((∃ q ∈ ([⟨"alice", "aa", 0⟩] : List NonceRecord), q.nonce = (⟨"bob", "aa", 1⟩ : NonceRecord).nonce)
        → insertNonce [⟨"alice", "aa", 0⟩] ⟨"bob", "aa", 1⟩ = none)
    ∧ (insertNonce [⟨"alice", "aa", 0⟩] ⟨"bob", "aa", 1⟩ = some []
        → ([] : List NonceRecord) = [⟨"alice", "aa", 0⟩] ++ [⟨"bob", "aa", 1⟩]) :=
  nonce_ledger_unique [⟨"alice", "aa", 0⟩] ⟨"bob", "aa", 1⟩ []
    (ReachableLedger.step [] ⟨"alice", "aa", 0⟩ [⟨"alice", "aa", 0⟩] ReachableLedger.nil (by rfl))

/-! ## C4 -/

/-- C4: the channel options pin exactly one trust anchor, enable
certificate verification, fix the protocol floor and ceiling to the one
newest supported version (TLS 1.3), restrict ciphers to an explicit
allow-list of AEAD suites, and set a configurable connect and idle
timeout defaulting to 5000 ms. -/
theorem tls_channel_pinned (env : Env) (hdef : env.tlsTimeoutMs = none) :
    (tlsOptionsOf env).rejectUnauthorized = true
    ∧ (tlsOptionsOf env).ca = [env.rootCA]
    ∧ (tlsOptionsOf env).minVersion = (tlsOptionsOf env).maxVersion
    ∧ (tlsOptionsOf env).maxVersion = newestTlsVersion
    ∧ (splitOnSep ':' (tlsOptionsOf env).ciphers.data).map String.mk
        = ["TLS_AES_256_GCM_SHA384", "TLS_CHACHA20_POLY1305_SHA256", "TLS_AES_128_GCM_SHA256"]
    ∧ ((splitOnSep ':' (tlsOptionsOf env).ciphers.data).map String.mk).all
        (fun c => tls13AeadSuites.contains c) = true
    ∧ (tlsOptionsOf env).timeout = 5000
    ∧ socketTimeoutOf env = (tlsOptionsOf env).timeout
    ∧ (∀ s v, jsParseInt s = some v → v ≠ 0 →
        (tlsOptionsOf ⟨env.hmacKey, some s, env.pythonHost, env.pythonPort, env.rootCA⟩).timeout = v) := by
  refine ⟨rfl, rfl, rfl, rfl, rfl, rfl, ?_, rfl, ?_⟩
  · show jsParseIntOr5000 env.tlsTimeoutMs = 5000
    rw [hdef]
    rfl
  · intro s v hs hv
    show jsParseIntOr5000 (some s) = v
    simp only [jsParseIntOr5000, hs]
    exact if_neg hv

/-- Witness for C4 at a concrete environment with no timeout configured. -/
theorem tls_channel_pinned_witness :
    (tlsOptionsOf ⟨none, none, "127.0.0.1", 5030, "PEM"⟩).rejectUnauthorized = true
    ∧ (tlsOptionsOf ⟨none, none, "127.0.0.1", 5030, "PEM"⟩).ca = ["PEM"]
    ∧ (tlsOptionsOf ⟨none, none, "127.0.0.1", 5030, "PEM"⟩).minVersion
        = (tlsOptionsOf ⟨none, none, "127.0.0.1", 5030, "PEM"⟩).maxVersion
    ∧ (tlsOptionsOf ⟨none, none, "127.0.0.1", 5030, "PEM"⟩).maxVersion = newestTlsVersion
    ∧ (splitOnSep ':' (tlsOptionsOf ⟨none, none, "127.0.0.1", 5030, "PEM"⟩).ciphers.data).map String.mk
        = ["TLS_AES_256_GCM_SHA384", "TLS_CHACHA20_POLY1305_SHA256", "TLS_AES_128_GCM_SHA256"]
    ∧ ((splitOnSep ':' (tlsOptionsOf ⟨none, none, "127.0.0.1", 5030, "PEM"⟩).ciphers.data).map String.mk).all
        (fun c => tls13AeadSuites.contains c) = true
    ∧ (tlsOptionsOf ⟨none, none, "127.0.0.1", 5030, "PEM"⟩).timeout = 5000
    ∧ socketTimeoutOf ⟨none, none, "127.0.0.1", 5030, "PEM"⟩
        = (tlsOptionsOf ⟨none, none, "127.0.0.1", 5030, "PEM"⟩).timeout
    ∧ (∀ s v, jsParseInt s = some v → v ≠ 0 →
        (tlsOptionsOf ⟨none, some s, "127.0.0.1", 5030, "PEM"⟩).timeout = v) :=
  tls_channel_pinned ⟨none, none, "127.0.0.1", 5030, "PEM"⟩ rfl

/-! ## C5 -/

/-- C5: at the call site of the relay, the three channel failure modes —
timeout, peer unreachable, and TLS negotiation/trust failure — yield three
pairwise-distinct HTTP responses, and the three underlying errors are
pairwise-distinct values. -/
theorem channel_errors_distinguishable (c m : String)
    (hpre : startsWithStr "ERR_TLS_" c = true) :
    (handleSend envEx .connectTimeout "n" 0 "alice" (.str "ingreso,5,c,d")).1 = ⟨500, errGenerico⟩
    ∧ (handleSend envEx .refused "n" 0 "alice" (.str "ingreso,5,c,d")).1 = ⟨503, errRefusedBody⟩
    ∧ (handleSend envEx (.handshakeFail c m) "n" 0 "alice" (.str "ingreso,5,c,d")).1 = ⟨500, errTlsBody⟩
    ∧ (⟨500, errGenerico⟩ : HttpResponse) ≠ ⟨503, errRefusedBody⟩
    ∧ (⟨503, errRefusedBody⟩ : HttpResponse) ≠ ⟨500, errTlsBody⟩
    ∧ (⟨500, errGenerico⟩ : HttpResponse) ≠ ⟨500, errTlsBody⟩
    ∧ timeoutError ≠ refusedError
    ∧ refusedError ≠ (⟨some c, m⟩ : JsError)
    ∧ timeoutError ≠ (⟨some c, m⟩ : JsError) := by
  have hne : (c != "") = true := by
    by_cases h : c = ""
    · subst h; exact absurd hpre (by decide)
    · simpa [bne] using h
  have hstep : (handleSend envEx (.handshakeFail c m) "n" 0 "alice" (.str "ingreso,5,c,d")).1
      = classifyTcpError ⟨some c, m⟩ := rfl
  refine ⟨by decide, by decide, ?_, by decide, by decide, by decide, by decide, ?_, by simp [timeoutError]⟩
  · rw [hstep]
    simp [classifyTcpError, hne, hpre]
  · intro h
    have hcode : some "ECONNREFUSED" = some c := congrArg JsError.code h
    have hc : c = "ECONNREFUSED" := (Option.some_inj.mp hcode).symm
    rw [hc] at hpre
    exact absurd hpre (by decide)

/-- Witness for C5 at a concrete `ERR_TLS_` code. -/
theorem channel_errors_distinguishable_witness :
    (handleSend envEx .connectTimeout "n" 0 "alice" (.str "ingreso,5,c,d")).1 = ⟨500, errGenerico⟩
    ∧ (handleSend envEx .refused "n" 0 "alice" (.str "ingreso,5,c,d")).1 = ⟨503, errRefusedBody⟩
    ∧ (handleSend envEx (.handshakeFail "ERR_TLS_CERT_ALTNAME_INVALID" "Hostname mismatch") "n" 0
        "alice" (.str "ingreso,5,c,d")).1 = ⟨500, errTlsBody⟩
    ∧ (⟨500, errGenerico⟩ : HttpResponse) ≠ ⟨503, errRefusedBody⟩
    ∧ (⟨503, errRefusedBody⟩ : HttpResponse) ≠ ⟨500, errTlsBody⟩
    ∧ (⟨500, errGenerico⟩ : HttpResponse) ≠ ⟨500, errTlsBody⟩
    ∧ timeoutError ≠ refusedError
    ∧ refusedError ≠ (⟨some "ERR_TLS_CERT_ALTNAME_INVALID", "Hostname mismatch"⟩ : JsError)
    ∧ timeoutError ≠ (⟨some "ERR_TLS_CERT_ALTNAME_INVALID", "Hostname mismatch"⟩ : JsError) :=
  channel_errors_distinguishable "ERR_TLS_CERT_ALTNAME_INVALID" "Hostname mismatch" (by decide)

/-! ## C6 -/

/-- C6 counterexample: with the key present in configuration but equal to
the empty string, the send still fails on the `ConfigurationError` branch
— so a present key does not make that branch unreachable. -/
theorem config_guard_trips_on_present_empty_key :
    enviarTransaccionTCP ⟨some "", none, "127.0.0.1", 5030, "ca"⟩ (.responds "OK\n") "n" 0 "u" "m"
      = (.error configError, [])
    ∧ (some "" : Option String) ≠ none := by
  exact ⟨rfl, by decide⟩

/-- C6 amended: if the shared key is absent or empty, the send fails with
the `ConfigurationError` and nothing is emitted on the wire; if the key is
present and non-empty, that error branch is unreachable. -/
theorem config_error_no_emission (env : Env) (net : NetOutcome) (nonce usuario mensaje : String)
    (ts : Nat) :
    (jsTruthyStr env.hmacKey = false →
      enviarTransaccionTCP env net nonce ts usuario mensaje = (.error configError, []))
    ∧ (jsTruthyStr env.hmacKey = true →
      (enviarTransaccionTCP env net nonce ts usuario mensaje).1 ≠ .error configError) := by
  constructor
  · intro hf
    cases hk : env.hmacKey with
    | none => simp [enviarTransaccionTCP, hk]
    | some k =>
      have hke : k = "" := by rw [hk] at hf; simpa [jsTruthyStr] using hf
      subst hke
      simp [enviarTransaccionTCP, hk]
  · intro ht
    cases hk : env.hmacKey with
    | none => rw [hk] at ht; exact absurd ht (by decide)
    | some k =>
      have hkne : k ≠ "" := by
        intro h
        rw [hk, h] at ht
        exact absurd ht (by decide)
      cases net <;>
        simp [enviarTransaccionTCP, hk, hkne, timeoutError, refusedError, configError]

/-- Witness for C6: the absent-key branch at a concrete environment and
the unreachable branch at a concrete non-empty key. -/
theorem config_error_no_emission_witness :
    enviarTransaccionTCP ⟨none, none, "127.0.0.1", 5030, "ca"⟩ .refused "n" 0 "u" "m"
      = (.error configError, [])
    ∧ (enviarTransaccionTCP envEx .refused "n" 0 "u" "m").1 ≠ .error configError :=
  ⟨(config_error_no_emission ⟨none, none, "127.0.0.1", 5030, "ca"⟩ .refused "n" "u" "m" 0).1 rfl,
   (config_error_no_emission envEx .refused "n" "u" "m" 0).2 rfl⟩

/-! ## C3 -/

theorem jsTrimChars_clean_newline (cs : List Char) (h : noEdgeWs cs = true) :
    jsTrimChars (cs ++ ['\n']) = cs := by
  simp only [noEdgeWs, Bool.and_eq_true, Bool.not_eq_true'] at h
  obtain ⟨h1, h2⟩ := h
  cases cs with
  | nil => rfl
  | cons c rest =>
    simp only [List.headD_cons] at h1
    unfold jsTrimChars
    rw [List.cons_append, List.dropWhile_cons, if_neg (by simp [h1])]
    rw [show (c :: (rest ++ ['\n'])).reverse = '\n' :: (c :: rest).reverse by
      simp [List.reverse_cons, List.reverse_append]]
    rw [List.dropWhile_cons, if_pos (by decide)]
    cases hrev : (c :: rest).reverse with
    | nil => exact absurd (List.reverse_eq_nil_iff.mp hrev) (by simp)
    | cons d ds =>
      have hd : d = (c :: rest).getLastD 'a' := by
        have h5 : (c :: rest).reverse.head? = some d := by rw [hrev]; rfl
        rw [List.head?_reverse] at h5
        rw [List.getLastD_eq_getLast?, h5]
        rfl
      have hdw : isJsWs d = false := by rw [hd]; exact h2
      rw [List.dropWhile_cons, if_neg (by simp [hdw]), ← hrev, List.reverse_reverse]

/-- The returned status equals the peer's line with surrounding whitespace
stripped; when the status text carries no edge whitespace, stripping the
terminating newline recovers it exactly. -/
theorem jsTrim_clean (t : String) (h : noEdgeWs t.data = true) : jsTrim (t ++ "\n") = t := by
  unfold jsTrim
  rw [String.data_append]
  rw [show ("\n" : String).data = ['\n'] from rfl]
  rw [jsTrimChars_clean_newline t.data h]

/-- Reduction of a send call that gets a response, key present. -/
theorem enviar_responds (env : Env) (nonce usuario mensaje k d : String)
    (ts : Nat) (hk0 : env.hmacKey = some k) (hkne : k ≠ "") :
    enviarTransaccionTCP env (.responds d) nonce ts usuario mensaje =
      (.ok (jsTrim d),
       [.connectAttempt (tlsOptionsOf env),
        .wrote (wireLine (composeMessage k usuario mensaje nonce ts)),
        .readData d, .closed]) := by
  simp [enviarTransaccionTCP, hk0, hkne]

theorem enviar_idleTimeout (env : Env) (nonce usuario mensaje k : String)
    (ts : Nat) (hk0 : env.hmacKey = some k) (hkne : k ≠ "") :
    enviarTransaccionTCP env .idleTimeout nonce ts usuario mensaje =
      (.error timeoutError,
       [.connectAttempt (tlsOptionsOf env),
        .wrote (wireLine (composeMessage k usuario mensaje nonce ts)),
        .destroyed]) := by
  simp [enviarTransaccionTCP, hk0, hkne]

theorem enviar_connectTimeout (env : Env) (nonce usuario mensaje k : String)
    (ts : Nat) (hk0 : env.hmacKey = some k) (hkne : k ≠ "") :
    enviarTransaccionTCP env .connectTimeout nonce ts usuario mensaje =
      (.error timeoutError, [.connectAttempt (tlsOptionsOf env), .destroyed]) := by
  simp [enviarTransaccionTCP, hk0, hkne]

theorem enviar_refused (env : Env) (nonce usuario mensaje k : String)
    (ts : Nat) (hk0 : env.hmacKey = some k) (hkne : k ≠ "") :
    enviarTransaccionTCP env .refused nonce ts usuario mensaje =
      (.error refusedError, [.connectAttempt (tlsOptionsOf env), .closed]) := by
  simp [enviarTransaccionTCP, hk0, hkne]

theorem enviar_handshakeFail (env : Env) (nonce usuario mensaje k c msg : String)
    (ts : Nat) (hk0 : env.hmacKey = some k) (hkne : k ≠ "") :
    enviarTransaccionTCP env (.handshakeFail c msg) nonce ts usuario mensaje =
      (.error ⟨some c, msg⟩, [.connectAttempt (tlsOptionsOf env), .closed]) := by
  simp [enviarTransaccionTCP, hk0, hkne]

/-- C3 amended: with a configured key, every call opens exactly one fresh
channel, writes at most once and only this call's composed message (under
this call's fresh nonce), reads at most one response, ends by tearing the
channel down, and on a response resolves to the response with surrounding
whitespace stripped (the status text itself when it has no edge
whitespace) — no retry, no reuse. -/
theorem send_single_cycle (env : Env) (net : NetOutcome) (nonce usuario mensaje : String)
    (ts : Nat) (hk : jsTruthyStr env.hmacKey = true) :
    ((enviarTransaccionTCP env net nonce ts usuario mensaje).2.filter isConnectEvt).length = 1
    ∧ ((enviarTransaccionTCP env net nonce ts usuario mensaje).2.filter isWroteEvt).length ≤ 1
    ∧ ((enviarTransaccionTCP env net nonce ts usuario mensaje).2.filter isReadEvt).length ≤ 1
    ∧ lastIsTeardown (enviarTransaccionTCP env net nonce ts usuario mensaje).2 = true
    ∧ (∀ k, env.hmacKey = some k →
        ∀ d, ChanEvent.wrote d ∈ (enviarTransaccionTCP env net nonce ts usuario mensaje).2 →
          d = wireLine (composeMessage k usuario mensaje nonce ts))
    ∧ (∀ d, net = .responds d →
        (enviarTransaccionTCP env net nonce ts usuario mensaje).1 = .ok (jsTrim d)
        ∧ (enviarTransaccionTCP env net nonce ts usuario mensaje).2.filter isReadEvt
            = [.readData d])
    ∧ (∀ t : String, noEdgeWs t.data = true → jsTrim (t ++ "\n") = t) := by
  cases hk0 : env.hmacKey with
  | none => rw [hk0] at hk; exact absurd hk (by decide)
  | some k =>
    have hkne : k ≠ "" := by
      intro h
      rw [hk0, h] at hk
      exact absurd hk (by decide)
    cases net with
    | responds d =>
      rw [enviar_responds env nonce usuario mensaje k d ts hk0 hkne]
      refine ⟨rfl, Nat.le_refl 1, Nat.le_refl 1, rfl, ?_, ?_, jsTrim_clean⟩
      · intro k' hk' d' hd'
        obtain rfl := Option.some_inj.mp hk'
        simp only [List.mem_cons, List.not_mem_nil, or_false] at hd'
        rcases hd' with h | h | h | h <;> simp_all
      · intro d' hd'
        injection hd' with h
        subst h
        exact ⟨rfl, rfl⟩
    | idleTimeout =>
      rw [enviar_idleTimeout env nonce usuario mensaje k ts hk0 hkne]
      refine ⟨rfl, Nat.le_refl 1, Nat.zero_le 1, rfl, ?_, ?_, jsTrim_clean⟩
      · intro k' hk' d' hd'
        obtain rfl := Option.some_inj.mp hk'
        simp only [List.mem_cons, List.not_mem_nil, or_false] at hd'
        rcases hd' with h | h | h <;> simp_all
      · intro d' hd'
        exact absurd hd' (by simp)
    | connectTimeout =>
      rw [enviar_connectTimeout env nonce usuario mensaje k ts hk0 hkne]
      refine ⟨rfl, Nat.zero_le 1, Nat.zero_le 1, rfl, ?_, ?_, jsTrim_clean⟩
      · intro k' hk' d' hd'
        simp at hd'
      · intro d' hd'
        exact absurd hd' (by simp)
    | refused =>
      rw [enviar_refused env nonce usuario mensaje k ts hk0 hkne]
      refine ⟨rfl, Nat.zero_le 1, Nat.zero_le 1, rfl, ?_, ?_, jsTrim_clean⟩
      · intro k' hk' d' hd'
        simp at hd'
      · intro d' hd'
        exact absurd hd' (by simp)
    | handshakeFail c msg =>
      rw [enviar_handshakeFail env nonce usuario mensaje k c msg ts hk0 hkne]
      refine ⟨rfl, Nat.zero_le 1, Nat.zero_le 1, rfl, ?_, ?_, jsTrim_clean⟩
      · intro k' hk' d' hd'
        simp at hd'
      · intro d' hd'
        exact absurd hd' (by simp)

/-- C3 counterexample: the resolved status is the peer's line after
`trim()`, not the line verbatim — a padded status text comes back with its
surrounding whitespace removed. -/
theorem send_not_verbatim :
    (enviarTransaccionTCP envEx (.responds "  OK  \n") "aabb" 7 "alice" "ingreso,1,c,d").1
      = .ok "OK"
    ∧ ("OK" : String) ≠ "  OK  \n"
    ∧ ("OK" : String) ≠ "  OK  " := by
  exact ⟨rfl, by decide, by decide⟩

/-- Witness for C3 at a concrete environment, response and nonce. -/
theorem send_single_cycle_witness :
    ((enviarTransaccionTCP envEx (.responds "OK\n") "aabb" 7 "alice" "ingreso,1,c,d").2.filter
        isConnectEvt).length = 1
    ∧ ((enviarTransaccionTCP envEx (.responds "OK\n") "aabb" 7 "alice" "ingreso,1,c,d").2.filter
        isWroteEvt).length ≤ 1
    ∧ ((enviarTransaccionTCP envEx (.responds "OK\n") "aabb" 7 "alice" "ingreso,1,c,d").2.filter
        isReadEvt).length ≤ 1
    ∧ lastIsTeardown (enviarTransaccionTCP envEx (.responds "OK\n") "aabb" 7 "alice"
        "ingreso,1,c,d").2 = true
    ∧ (∀ k, envEx.hmacKey = some k →
        ∀ d, ChanEvent.wrote d ∈ (enviarTransaccionTCP envEx (.responds "OK\n") "aabb" 7 "alice"
            "ingreso,1,c,d").2 →
          d = wireLine (composeMessage k "alice" "ingreso,1,c,d" "aabb" 7))
    ∧ (∀ d, NetOutcome.responds "OK\n" = .responds d →
        (enviarTransaccionTCP envEx (.responds "OK\n") "aabb" 7 "alice" "ingreso,1,c,d").1
            = .ok (jsTrim d)
        ∧ (enviarTransaccionTCP envEx (.responds "OK\n") "aabb" 7 "alice" "ingreso,1,c,d").2.filter
            isReadEvt = [.readData d])
    ∧ (∀ t : String, noEdgeWs t.data = true → jsTrim (t ++ "\n") = t) :=
  send_single_cycle envEx (.responds "OK\n") "aabb" "alice" "ingreso,1,c,d" 7 (by decide)

/-! ## C7 -/

theorem getD_mem_of_lt {α : Type} (l : List α) (n : Nat) (d : α) (h : n < l.length) :
    l.getD n d ∈ l := by
  induction l generalizing n with
  | nil => simp at h
  | cons a l ih =>
    cases n with
    | zero => simp [List.getD]
    | succ m =>
      simp only [List.getD_cons_succ]
      exact List.mem_cons_of_mem a (ih m (by simpa using h))

theorem splitOnSep_ne_nil (sep : Char) (cs : List Char) : splitOnSep sep cs ≠ [] := by
  cases cs with
  | nil => simp [splitOnSep]
  | cons c rest =>
    simp only [splitOnSep]
    split <;> simp

theorem splitOnSep_sublist (sep : Char) (cs : List Char) :
    ∀ part ∈ splitOnSep sep cs, part.Sublist cs := by
  induction cs with
  | nil =>
    intro part h
    simp only [splitOnSep, List.mem_singleton] at h
    subst h
    exact List.Sublist.refl []
  | cons c rest ih =>
    intro part h
    simp only [splitOnSep] at h
    by_cases hc : c = sep
    · rw [if_pos hc] at h
      rcases List.mem_cons.mp h with rfl | h'
      · exact List.nil_sublist _
      · exact (ih part h').cons c
    · rw [if_neg hc] at h
      cases hsp : splitOnSep sep rest with
      | nil => exact absurd hsp (splitOnSep_ne_nil sep rest)
      | cons h0 tl =>
        rw [hsp] at h
        simp only [List.headD_cons, List.tail_cons] at h
        rcases List.mem_cons.mp h with rfl | h'
        · exact (ih h0 (by rw [hsp]; exact List.mem_cons_self h0 tl)).cons₂ c
        · exact (ih part (by rw [hsp]; exact List.mem_cons_of_mem h0 h')).cons c

theorem length_le_weight (cs : List Char) : cs.length ≤ (cs.map utf16Len).sum := by
  induction cs with
  | nil => simp
  | cons c rest ih =>
    have : 1 ≤ utf16Len c := by
      unfold utf16Len
      split <;> omega
    simp only [List.length_cons, List.map_cons, List.sum_cons]
    omega

theorem weight_le_of_sublist {l1 l2 : List Char} (h : l1.Sublist l2) :
    (l1.map utf16Len).sum ≤ (l2.map utf16Len).sum :=
  List.Sublist.sum_le_sum (h.map utf16Len) (fun a _ => Nat.zero_le a)

theorem jsTrimChars_sublist (cs : List Char) : (jsTrimChars cs).Sublist cs := by
  unfold jsTrimChars
  have h1 : (cs.dropWhile isJsWs).Sublist cs := List.dropWhile_sublist _
  have h2 := (@List.dropWhile_sublist Char (cs.dropWhile isJsWs).reverse isJsWs).reverse
  rw [List.reverse_reverse] at h2
  exact h2.trans h1

theorem sanitizeStr_sublist (s : String) : (sanitizeStr s).data.Sublist s.data := by
  show ((jsTrimChars s.data).filter _).Sublist s.data
  exact (List.filter_sublist _).trans (jsTrimChars_sublist s.data)

/-- Inversion of the accepting run of the endpoint validation. -/
theorem validateStr_ok (s t : String) (h : validateStr s = .ok t) :
    jsStrLength s ≤ 250
    ∧ t = sanitizeStr s
    ∧ (splitComma t.data).length = 4
    ∧ ((splitComma t.data).headD [] = "ingreso".data ∨ (splitComma t.data).headD [] = "gasto".data)
    ∧ (∃ p, jsParseFloat (String.mk ((splitComma t.data).getD 1 [])) = some p
        ∧ jsFloatPos p = true) := by
  unfold validateStr at h
  split_ifs at h with h1 h2 h3
  rcases hpf : jsParseFloat (String.mk ((splitComma (sanitizeStr s).data).getD 1 [])) with _ | p
  · rw [hpf] at h
    exact absurd h (by simp)
  · rw [hpf] at h
    have h' : (if jsFloatPos p = true then Except.ok (sanitizeStr s)
        else Except.error errCantidad) = Except.ok t := h
    split_ifs at h' with h4
    have ht : t = sanitizeStr s := by
      injection h' with h5
      exact h5.symm
    subst ht
    refine ⟨by omega, rfl, by omega, ?_, ⟨p, hpf, h4⟩⟩
    have hX : ((splitComma (sanitizeStr s).data).headD [] == "ingreso".data
        || (splitComma (sanitizeStr s).data).headD [] == "gasto".data) = true := by
      cases hx : ((splitComma (sanitizeStr s).data).headD [] == "ingreso".data
          || (splitComma (sanitizeStr s).data).headD [] == "gasto".data) with
      | false => exact absurd (by rw [hx]; rfl) h3
      | true => rfl
    cases hb : ((splitComma (sanitizeStr s).data).headD [] == "ingreso".data) with
    | true => exact Or.inl (eq_of_beq hb)
    | false =>
      refine Or.inr (eq_of_beq ?_)
      rw [hb, Bool.false_or] at hX
      exact hX

theorem validateSend_ok (v : JsValue) (t : String) (h : validateSend v = .ok t) :
    ∃ s, v = .str s ∧ validateStr s = .ok t := by
  unfold validateSend at h
  split_ifs at h with h0
  cases v with
  | undef => exact absurd h (by simp)
  | other => exact absurd h (by simp)
  | str s => exact ⟨s, rfl, h⟩

theorem handleSend_rejects (env : Env) (net : NetOutcome) (nonce : String) (ts : Nat)
    (usuario : String) (v : JsValue) (b : String) (h : validateSend v = .error b) :
    handleSend env net nonce ts usuario v = (⟨400, b⟩, []) := by
  simp [handleSend, h]

/-- C7 amended: a command is relayed only if, after sanitization, it has
exactly 4 comma-separated fields, the first is one of the two operation
kinds, JS `parseFloat` of the second yields a positive value (so a
positive numeric prefix suffices — the field need not be a pure decimal
numeral), and the whole message (hence category and description) is
bounded by 250 units; any rejection happens with a 400 before anything is
composed or sent. -/
theorem send_validation_shape (v : JsValue) (t : String) (h : validateSend v = .ok t) :
    (∃ s, v = .str s ∧ jsStrLength s ≤ 250 ∧ t = sanitizeStr s)
    ∧ (splitComma t.data).length = 4
    ∧ ((splitComma t.data).headD [] = "ingreso".data ∨ (splitComma t.data).headD [] = "gasto".data)
    ∧ (∃ p, jsParseFloat (String.mk ((splitComma t.data).getD 1 [])) = some p
        ∧ jsFloatPos p = true)
    ∧ jsStrLength t ≤ 250
    ∧ ((splitComma t.data).getD 3 []).length ≤ 250
    ∧ (∀ env net nonce ts usuario v2 b, validateSend v2 = .error b →
        handleSend env net nonce ts usuario v2 = (⟨400, b⟩, [])) := by
  obtain ⟨s, rfl, hstr⟩ := validateSend_ok v t h
  obtain ⟨hlen, ht, h4, hkind, hpos⟩ := validateStr_ok s t hstr
  have hsub : t.data.Sublist s.data := ht ▸ sanitizeStr_sublist s
  have hwt : jsStrLength t ≤ 250 :=
    le_trans (weight_le_of_sublist hsub) hlen
  refine ⟨⟨s, rfl, hlen, ht⟩, h4, hkind, hpos, hwt, ?_, handleSend_rejects⟩
  have hmem : (splitComma t.data).getD 3 [] ∈ splitComma t.data :=
    getD_mem_of_lt (splitComma t.data) 3 [] (by omega)
  have hsub3 : ((splitComma t.data).getD 3 []).Sublist t.data :=
    splitOnSep_sublist ',' t.data _ hmem
  calc ((splitComma t.data).getD 3 []).length
      ≤ t.data.length := hsub3.length_le
    _ ≤ (t.data.map utf16Len).sum := length_le_weight t.data
    _ ≤ 250 := hwt

/-- C7 counterexample: `parseFloat` accepts a positive numeric prefix, so
the command `ingreso,5x,comida,cena` is accepted and relayed although its
second field is not a decimal numeral. -/
theorem amount_prefix_accepted :
    validateSend (.str "ingreso,5x,comida,cena") = .ok "ingreso,5x,comida,cena"
    ∧ isPositiveDecimalLiteral "5x" = false := by
  exact ⟨by decide, by decide⟩

/-- Witness for C7 at a well-formed concrete command. -/
theorem send_validation_shape_witness :
    (∃ s, JsValue.str "ingreso,100.50,salario,nomina" = .str s ∧ jsStrLength s ≤ 250
      ∧ "ingreso,100.50,salario,nomina" = sanitizeStr s)
    ∧ (splitComma ("ingreso,100.50,salario,nomina" : String).data).length = 4
    ∧ ((splitComma ("ingreso,100.50,salario,nomina" : String).data).headD [] = "ingreso".data
        ∨ (splitComma ("ingreso,100.50,salario,nomina" : String).data).headD [] = "gasto".data)
    ∧ (∃ p, jsParseFloat (String.mk
          ((splitComma ("ingreso,100.50,salario,nomina" : String).data).getD 1 [])) = some p
        ∧ jsFloatPos p = true)
    ∧ jsStrLength "ingreso,100.50,salario,nomina" ≤ 250
    ∧ ((splitComma ("ingreso,100.50,salario,nomina" : String).data).getD 3 []).length ≤ 250
    ∧ (∀ env net nonce ts usuario v2 b, validateSend v2 = .error b →
        handleSend env net nonce ts usuario v2 = (⟨400, b⟩, [])) :=
  send_validation_shape (.str "ingreso,100.50,salario,nomina") "ingreso,100.50,salario,nomina"
    (by decide)

/-! ## C10 -/

theorem filter_all_self {α : Type} (p : α → Bool) (l : List α) : (l.filter p).all p = true := by
  rw [List.all_eq_true]
  intro a ha
  exact (List.mem_filter.mp ha).2

theorem sanitize_no_bad (v : JsValue) :
    (sanitizeInput v).data.all (fun c => !isBadChar c) = true := by
  cases v with
  | str s => exact filter_all_self _ _
  | undef => rfl
  | other => rfl

/-- C10: sanitization trims the caller's command and removes every
occurrence of `<`, `>`, `'`, `"` (a non-string becomes the empty string);
the command the endpoint signs and relays is exactly the sanitized one —
free of those characters and possibly different from what was submitted. -/
theorem command_sanitized (v : JsValue) (s t : String)
    (h : validateSend (.str s) = .ok t) :
    (sanitizeInput v).data.all (fun c => !isBadChar c) = true
    ∧ sanitizeInput .undef = ""
    ∧ sanitizeInput .other = ""
    ∧ t = sanitizeStr s
    ∧ t.data.all (fun c => !isBadChar c) = true
    ∧ sanitizeStr "a<b" ≠ "a<b"
    ∧ (∀ env net nonce ts usuario,
        (handleSend env net nonce ts usuario (.str s)).2
          = (enviarTransaccionTCP env net nonce ts usuario t).2) := by
  obtain ⟨s', hs', hstr⟩ := validateSend_ok _ _ h
  have hss : s' = s := by injection hs' with h'; exact h'.symm
  subst hss
  obtain ⟨_, ht, _⟩ := validateStr_ok s' t hstr
  refine ⟨sanitize_no_bad v, rfl, rfl, ht, ?_, by decide, ?_⟩
  · rw [ht]
    exact filter_all_self _ _
  · intro env net nonce ts usuario
    simp only [handleSend, h]
    rcases h2 : enviarTransaccionTCP env net nonce ts usuario t with ⟨res, evs⟩
    cases res <;> simp

/-- Witness for C10 at a concrete submitted command containing characters
to strip. -/
theorem command_sanitized_witness :
    (sanitizeInput (.str " <ingreso>,5,c,d ")).data.all (fun c => !isBadChar c) = true
    ∧ sanitizeInput .undef = ""
    ∧ sanitizeInput .other = ""
    ∧ ("ingreso,5,c,d" : String) = sanitizeStr " <ingreso>,5,c,d "
    ∧ ("ingreso,5,c,d" : String).data.all (fun c => !isBadChar c) = true
    ∧ sanitizeStr "a<b" ≠ "a<b"
    ∧ (∀ env net nonce ts usuario,
        (handleSend env net nonce ts usuario (.str " <ingreso>,5,c,d ")).2
          = (enviarTransaccionTCP env net nonce ts usuario "ingreso,5,c,d").2) :=
  command_sanitized (.str " <ingreso>,5,c,d ") " <ingreso>,5,c,d " "ingreso,5,c,d" (by decide)

/-! ## C8 -/

theorem dropPrefixChars_self (l rest : List Char) : dropPrefixChars l (l ++ rest) = some rest := by
  induction l with
  | nil => rfl
  | cons c cs ih => simp [dropPrefixChars, ih]

theorem hexVal_hexDigitChar : ∀ k < 16, hexVal (hexDigitChar k) = some k := by decide

theorem escChar_length_pos (c : Char) : 1 ≤ (escChar c).length := by
  unfold escChar
  split_ifs <;> simp

theorem length_le_flatMap_escChar (cs : List Char) :
    cs.length ≤ (cs.flatMap escChar).length := by
  induction cs with
  | nil => simp
  | cons c rest ih =>
    simp only [List.flatMap_cons, List.length_append, List.length_cons]
    have := escChar_length_pos c
    omega

theorem parseStrAux_plain (f : Nat) (c : Char) (rest : List Char)
    (h1 : c ≠ '"') (h2 : c ≠ '\\') :
    parseStrAux (f + 1) (c :: rest)
      = (parseStrAux f rest).map (fun p => (c :: p.1, p.2)) := by
  simp only [parseStrAux]
  rw [if_neg h1, if_neg h2]

theorem parseStrAux_u (f : Nat) (d1 d2 : Char) (v1 v2 : Nat) (rest : List Char)
    (h1 : hexVal d1 = some v1) (h2 : hexVal d2 = some v2) :
    parseStrAux (f + 1) ('\\' :: 'u' :: '0' :: '0' :: d1 :: d2 :: rest)
      = (parseStrAux f rest).map (fun p => (Char.ofNat (v1 * 16 + v2) :: p.1, p.2)) := by
  have hstep : parseStrAux (f + 1) ('\\' :: 'u' :: '0' :: '0' :: d1 :: d2 :: rest)
      = (match hexVal '0', hexVal '0', hexVal d1, hexVal d2 with
         | some w1, some w2, some w3, some w4 =>
           (parseStrAux f rest).map
             (fun p => (Char.ofNat (((w1 * 16 + w2) * 16 + w3) * 16 + w4) :: p.1, p.2))
         | _, _, _, _ => none) := rfl
  rw [hstep, h1, h2]
  show (parseStrAux f rest).map
      (fun p => (Char.ofNat (((0 * 16 + 0) * 16 + v1) * 16 + v2) :: p.1, p.2)) = _
  norm_num

/-- The core roundtrip: the JSON string-body scanner inverts
`JSON.stringify` escaping, for any fuel above the source length. -/
theorem parseStrAux_round (cs : List Char) : ∀ (fuel : Nat) (rest : List Char),
    cs.length < fuel →
    parseStrAux fuel (cs.flatMap escChar ++ '"' :: rest) = some (cs, rest) := by
  induction cs with
  | nil =>
    intro fuel rest hf
    obtain ⟨f, rfl⟩ : ∃ f, fuel = f + 1 := ⟨fuel - 1, by omega⟩
    rfl
  | cons c cs ih =>
    intro fuel rest hf
    obtain ⟨f, rfl⟩ : ∃ f, fuel = f + 1 := ⟨fuel - 1, by omega⟩
    have hf' : cs.length < f := by
      simp only [List.length_cons] at hf
      omega
    have ihf := ih f rest hf'
    by_cases h1 : c = '"'
    · subst h1
      show parseStrAux (f + 1) ('\\' :: '"' :: (cs.flatMap escChar ++ '"' :: rest))
        = some ('"' :: cs, rest)
      have : parseStrAux (f + 1) ('\\' :: '"' :: (cs.flatMap escChar ++ '"' :: rest))
          = (parseStrAux f (cs.flatMap escChar ++ '"' :: rest)).map
              (fun p => ('"' :: p.1, p.2)) := rfl
      rw [this, ihf]
      rfl
    by_cases h2 : c = '\\'
    · subst h2
      show parseStrAux (f + 1) ('\\' :: '\\' :: (cs.flatMap escChar ++ '"' :: rest))
        = some ('\\' :: cs, rest)
      have : parseStrAux (f + 1) ('\\' :: '\\' :: (cs.flatMap escChar ++ '"' :: rest))
          = (parseStrAux f (cs.flatMap escChar ++ '"' :: rest)).map
              (fun p => ('\\' :: p.1, p.2)) := rfl
      rw [this, ihf]
      rfl
    by_cases h3 : c.toNat = 8
    · have hc : c = Char.ofNat 8 := by rw [← h3, Char.ofNat_toNat]
      subst hc
      have : parseStrAux (f + 1)
            ((Char.ofNat 8 :: cs).flatMap escChar ++ '"' :: rest)
          = (parseStrAux f (cs.flatMap escChar ++ '"' :: rest)).map
              (fun p => (Char.ofNat 8 :: p.1, p.2)) := rfl
      rw [this, ihf]
      rfl
    by_cases h4 : c.toNat = 9
    · have hc : c = Char.ofNat 9 := by rw [← h4, Char.ofNat_toNat]
      subst hc
      have : parseStrAux (f + 1)
            ((Char.ofNat 9 :: cs).flatMap escChar ++ '"' :: rest)
          = (parseStrAux f (cs.flatMap escChar ++ '"' :: rest)).map
              (fun p => (Char.ofNat 9 :: p.1, p.2)) := rfl
      rw [this, ihf]
      rfl
    by_cases h5 : c.toNat = 10
    · have hc : c = Char.ofNat 10 := by rw [← h5, Char.ofNat_toNat]
      subst hc
      have : parseStrAux (f + 1)
            ((Char.ofNat 10 :: cs).flatMap escChar ++ '"' :: rest)
          = (parseStrAux f (cs.flatMap escChar ++ '"' :: rest)).map
              (fun p => (Char.ofNat 10 :: p.1, p.2)) := rfl
      rw [this, ihf]
      rfl
    by_cases h6 : c.toNat = 12
    · have hc : c = Char.ofNat 12 := by rw [← h6, Char.ofNat_toNat]
      subst hc
      have : parseStrAux (f + 1)
            ((Char.ofNat 12 :: cs).flatMap escChar ++ '"' :: rest)
          = (parseStrAux f (cs.flatMap escChar ++ '"' :: rest)).map
              (fun p => (Char.ofNat 12 :: p.1, p.2)) := rfl
      rw [this, ihf]
      rfl
    by_cases h7 : c.toNat = 13
    · have hc : c = Char.ofNat 13 := by rw [← h7, Char.ofNat_toNat]
      subst hc
      have : parseStrAux (f + 1)
            ((Char.ofNat 13 :: cs).flatMap escChar ++ '"' :: rest)
          = (parseStrAux f (cs.flatMap escChar ++ '"' :: rest)).map
              (fun p => (Char.ofNat 13 :: p.1, p.2)) := rfl
      rw [this, ihf]
      rfl
    by_cases h8 : c.toNat < 32
    · have hesc : escChar c
          = ['\\', 'u', '0', '0', hexDigitChar (c.toNat / 16), hexDigitChar (c.toNat % 16)] := by
        unfold escChar
        rw [if_neg h1, if_neg h2, if_neg h3, if_neg h4, if_neg h5, if_neg h6, if_neg h7,
          if_pos h8]
      have hv1 : hexVal (hexDigitChar (c.toNat / 16)) = some (c.toNat / 16) :=
        hexVal_hexDigitChar _ (by omega)
      have hv2 : hexVal (hexDigitChar (c.toNat % 16)) = some (c.toNat % 16) :=
        hexVal_hexDigitChar _ (by omega)
      rw [List.flatMap_cons, hesc]
      show parseStrAux (f + 1)
          ('\\' :: 'u' :: '0' :: '0' :: hexDigitChar (c.toNat / 16)
            :: hexDigitChar (c.toNat % 16) :: (cs.flatMap escChar ++ '"' :: rest))
        = some (c :: cs, rest)
      rw [parseStrAux_u f _ _ _ _ _ hv1 hv2, ihf]
      show some (Char.ofNat (c.toNat / 16 * 16 + c.toNat % 16) :: cs, rest) = _
      rw [show c.toNat / 16 * 16 + c.toNat % 16 = c.toNat by omega, Char.ofNat_toNat]
    · have hesc : escChar c = [c] := by
        unfold escChar
        rw [if_neg h1, if_neg h2, if_neg h3, if_neg h4, if_neg h5, if_neg h6, if_neg h7,
          if_neg h8]
      rw [List.flatMap_cons, hesc]
      show parseStrAux (f + 1) (c :: (cs.flatMap escChar ++ '"' :: rest))
        = some (c :: cs, rest)
      rw [parseStrAux_plain f c (cs.flatMap escChar ++ '"' :: rest) h1 h2, ihf]
      rfl

theorem parseJsonStr_quote (s : String) (rest : List Char) :
    parseJsonStr (jsonQuote s ++ rest) = some (s, rest) := by
  have hshape : jsonQuote s ++ rest = '"' :: (s.data.flatMap escChar ++ '"' :: rest) := by
    simp [jsonQuote, List.append_assoc]
  rw [hshape]
  have hfuel : s.data.length < (s.data.flatMap escChar ++ '"' :: rest).length + 1 := by
    have := length_le_flatMap_escChar s.data
    simp only [List.length_append, List.length_cons]
    omega
  show (parseStrAux ((s.data.flatMap escChar ++ '"' :: rest).length + 1)
      (s.data.flatMap escChar ++ '"' :: rest)).map (fun p => (String.mk p.1, p.2))
    = some (s, rest)
  rw [parseStrAux_round s.data _ rest hfuel]
  rfl

theorem digit_char_isDigit : ∀ m < 10, (Char.ofNat (48 + m)).isDigit = true := by decide

theorem digit_char_toNat : ∀ m < 10, (Char.ofNat (48 + m)).toNat = 48 + m := by decide

theorem natToChars_digits (n : Nat) : ∀ c ∈ natToChars n, c.isDigit = true := by
  induction n using Nat.strong_induction_on with
  | _ n ih =>
    unfold natToChars
    split_ifs with h
    · intro c hc
      simp only [List.mem_singleton] at hc
      subst hc
      exact digit_char_isDigit n h
    · intro c hc
      rw [List.mem_append] at hc
      rcases hc with hc | hc
      · exact ih (n / 10) (Nat.div_lt_self (by omega) (by omega)) c hc
      · simp only [List.mem_singleton] at hc
        subst hc
        exact digit_char_isDigit (n % 10) (by omega)

theorem natToChars_ne_nil (n : Nat) : natToChars n ≠ [] := by
  unfold natToChars
  split_ifs <;> simp

theorem digitsVal_append_singleton (l : List Char) (c : Char) :
    digitsVal (l ++ [c]) = digitsVal l * 10 + (c.toNat - 48) := by
  unfold digitsVal
  rw [List.foldl_append]
  rfl

theorem digitsVal_natToChars (n : Nat) : digitsVal (natToChars n) = n := by
  induction n using Nat.strong_induction_on with
  | _ n ih =>
    unfold natToChars
    split_ifs with h
    · show digitsVal [Char.ofNat (48 + n)] = n
      unfold digitsVal
      simp only [List.foldl_cons, List.foldl_nil, Nat.zero_mul, Nat.zero_add]
      rw [digit_char_toNat n h]
      omega
    · rw [digitsVal_append_singleton, ih (n / 10) (Nat.div_lt_self (by omega) (by omega)),
        digit_char_toNat (n % 10) (by omega)]
      omega

theorem takeWhile_digits_append (ds : List Char) (hds : ∀ c ∈ ds, c.isDigit = true)
    (b : Char) (hb : b.isDigit = false) (bs : List Char) :
    (ds ++ b :: bs).takeWhile Char.isDigit = ds
    ∧ (ds ++ b :: bs).dropWhile Char.isDigit = b :: bs := by
  induction ds with
  | nil =>
    simp only [List.nil_append]
    constructor
    · rw [List.takeWhile_cons]
      simp [hb]
    · rw [List.dropWhile_cons, hb]
      simp
  | cons d ds ih =>
    have hd : d.isDigit = true := hds d (List.mem_cons_self d ds)
    obtain ⟨iht, ihd⟩ := ih (fun c hc => hds c (List.mem_cons_of_mem d hc))
    constructor
    · rw [List.cons_append, List.takeWhile_cons]
      simp [hd, iht]
    · rw [List.cons_append, List.dropWhile_cons, hd]
      simpa using ihd

theorem parseNatPart_natToChars (n : Nat) (b : Char) (hb : b.isDigit = false)
    (bs : List Char) :
    parseNatPart (natToChars n ++ b :: bs) = some (n, b :: bs) := by
  unfold parseNatPart
  obtain ⟨ht, hd⟩ := takeWhile_digits_append (natToChars n) (natToChars_digits n) b hb bs
  rw [ht, hd, if_neg (natToChars_ne_nil n), digitsVal_natToChars]

theorem dropKey_head (k : String) (rest : List Char) :
    dropPrefixChars (lbrace :: keyColon k) (lbrace :: (jsonQuote k ++ ':' :: rest))
      = some rest := by
  have he : lbrace :: (jsonQuote k ++ ':' :: rest) = (lbrace :: keyColon k) ++ rest := by
    simp [keyColon, List.append_assoc]
  rw [he, dropPrefixChars_self]

theorem dropKey_comma (k : String) (rest : List Char) :
    dropPrefixChars (',' :: keyColon k) (',' :: (jsonQuote k ++ ':' :: rest))
      = some rest := by
  have he : ',' :: (jsonQuote k ++ ':' :: rest) = (',' :: keyColon k) ++ rest := by
    simp [keyColon, List.append_assoc]
  rw [he, dropPrefixChars_self]

theorem dropPrefixChars_close :
    dropPrefixChars [rbrace, '\n'] [rbrace, '\n'] = some [] := rfl

/-- The serializer/deserializer pair is mutually inverse: decoding the
newline-terminated wire line of any message recovers the message. -/
theorem decode_wireLine (m : MsgRecord) : decodePayload (wireLine m) = some m := by
  obtain ⟨tipo, usuario, mensaje, nonce, ts, mac⟩ := m
  show decodePayload (String.mk (encodePayloadChars ⟨tipo, usuario, mensaje, nonce, ts, mac⟩
    ++ ['\n'])) = _
  unfold decodePayload encodePayloadChars
  simp only [List.cons_append, List.append_assoc, List.nil_append]
  rw [dropKey_head]
  simp only [Option.bind_eq_bind, Option.some_bind]
  rw [parseJsonStr_quote]
  simp only [Option.some_bind]
  rw [dropKey_comma]
  simp only [Option.some_bind]
  rw [parseJsonStr_quote]
  simp only [Option.some_bind]
  rw [dropKey_comma]
  simp only [Option.some_bind]
  rw [parseJsonStr_quote]
  simp only [Option.some_bind]
  rw [dropKey_comma]
  simp only [Option.some_bind]
  rw [parseJsonStr_quote]
  simp only [Option.some_bind]
  rw [dropKey_comma]
  simp only [Option.some_bind]
  rw [parseNatPart_natToChars ts ',' (by decide)]
  simp only [Option.some_bind]
  rw [dropKey_comma]
  simp only [Option.some_bind]
  rw [parseJsonStr_quote]
  simp only [Option.some_bind]
  rw [dropPrefixChars_close]
  simp only [Option.some_bind]
  rfl

/-- C8: serialization and deserialization are mutually inverse — for
every message, decoding the single newline-terminated JSON record
produced by the encoder yields the message back. -/
theorem codec_roundtrip (m : MsgRecord) : decodePayload (wireLine m) = some m :=
  decode_wireLine m

/-! ## C9 -/

/-- C9: the shared key never reaches the wire — two runs over equal
inputs under different keys compose messages that agree on every field
but the tag (so agree entirely whenever the tags agree), and the
serialized payload parses back as exactly the six wire fields, the key
influencing it only through the tag. -/
theorem key_only_in_tag (k1 k2 usuario mensaje nonce : String) (ts : Nat) :
    eraseMac (composeMessage k1 usuario mensaje nonce ts)
      = eraseMac (composeMessage k2 usuario mensaje nonce ts)
    ∧ ((composeMessage k1 usuario mensaje nonce ts).mac
          = (composeMessage k2 usuario mensaje nonce ts).mac →
        wireLine (composeMessage k1 usuario mensaje nonce ts)
          = wireLine (composeMessage k2 usuario mensaje nonce ts))
    ∧ decodePayload (wireLine (composeMessage k1 usuario mensaje nonce ts))
        = some (composeMessage k1 usuario mensaje nonce ts) := by
  refine ⟨rfl, ?_, decode_wireLine _⟩
  intro h
  have h' : hmacSha256Hex k1 (canonicalString nonce ts usuario mensaje)
      = hmacSha256Hex k2 (canonicalString nonce ts usuario mensaje) := h
  have hm : composeMessage k1 usuario mensaje nonce ts
      = composeMessage k2 usuario mensaje nonce ts := by
    unfold composeMessage
    rw [h']
  rw [hm]

end Relay

